import Mathlib

/-!
# Verification of the formdata-parser core (`src/index.ts`)

This file gives a shallow embedding of the core of the `formdata-parser`
repository — the field-name grammar parser, the value caster, the deep-path
assignor, the multi-value merger, the list-pair assembler, and the
orchestrator `parseTypedFormData` — and proves or refutes the frozen claims
about it.

Modelling conventions:

* JavaScript runtime values that can appear in the output tree are the
  inductive `JSValue`.  JavaScript objects carry string-keyed own properties;
  since `Date` instances, `File` instances and arrays are objects too, they
  each carry a property list (normally empty) in addition to their payload,
  because the source's `setDeep` descends into any `typeof "object"` value.
* JavaScript machine numbers are modelled as `Rat`.  The code never does
  arithmetic on them and never compares them, so IEEE-754 *rounding* is
  irrelevant to every claim, but *overflow* is not: `Number(string)` is
  modelled as `jsStringToNumber : String → Option Rat` with `none` for
  every non-finite result, including literals whose magnitude is at or
  above the binary64 overflow threshold (`Number("1e309")` is `Infinity`);
  `NaN`/`Infinity` never reach the tree (the caster only ever asks
  `Number.isFinite`).
* Property writes are fallible: assigning an invalid value to an array's
  `length` raises `RangeError` in JavaScript, and user-chosen field names
  (`a.length` over a stored array) reach that assignment, so `setProp` and
  everything above it return `Except ParseError`.
* `new Date(string)` and `JSON.parse` are host-environment functions, not
  code of this repository; they are parameters (`JSEnv`), so theorems hold
  for every host behaviour.
* The embedding is functional: mutation of the (exclusively owned) output
  tree is modelled by rebuilding the tree along the mutated path.
* String helpers (`trim`, `split`, `toLowerCase`, `Number(·)`) are modelled
  over `List Char` so that all definitions reduce inside the kernel.
  `toLowerCase` is modelled as ASCII lowercasing; the few non-ASCII
  one-to-one case mappings of Unicode are not modelled (no claim depends on
  them).
-/

/-! ## JavaScript string primitives -/

/-- The WhiteSpace ∪ LineTerminator set that `String.prototype.trim` and
`Number(string)` strip (ECMA-262). -/
def jsWhitespaceChar (c : Char) : Bool :=
  c = ' ' ∨ c = '\t' ∨ c = '\n' ∨ c = '\r' ∨ c = '\x0b' ∨ c = '\x0c' ∨
  c = '\u00A0' ∨ c = '\uFEFF' ∨ c = '\u1680' ∨ ('\u2000' ≤ c ∧ c ≤ '\u200A') ∨
  c = '\u2028' ∨ c = '\u2029' ∨ c = '\u202F' ∨ c = '\u205F' ∨ c = '\u3000'

def jsTrimList (cs : List Char) : List Char :=
  ((cs.dropWhile jsWhitespaceChar).reverse.dropWhile jsWhitespaceChar).reverse

/-- Model of JavaScript `s.trim()`. -/
def jsTrim (s : String) : String := String.mk (jsTrimList s.data)

/-- Splitter for JavaScript `s.split(sep)` with a non-empty string separator:
scan left to right, cutting at each leftmost occurrence of `sep`. A fuel
argument keeps the recursion structural (fuel `≥ length` is always enough). -/
def splitGo (sep : List Char) : Nat → List Char → List Char → List (List Char)
  | 0, _, acc => [acc.reverse]
  | _ + 1, [], acc => [acc.reverse]
  | fuel + 1, c :: cs, acc =>
    if sep.isPrefixOf (c :: cs) then
      acc.reverse :: splitGo sep fuel ((c :: cs).drop sep.length) []
    else
      splitGo sep fuel cs (c :: acc)

/-- JavaScript `s.split(sep)` for a non-empty separator. -/
def jsSplitOn (s sep : String) : List String :=
  (splitGo sep.data (s.data.length + 1) s.data []).map String.mk

/-- JavaScript `s.split(sep)` including the empty-separator case, which
splits into single characters. -/
def jsSplit (s sep : String) : List String :=
  if sep = "" then s.data.map (fun c => String.mk [c]) else jsSplitOn s sep

def asciiLowerChar (c : Char) : Char :=
  if 'A' ≤ c ∧ c ≤ 'Z' then Char.ofNat (c.toNat + 32) else c

/-- Model of JavaScript `s.toLowerCase()` (ASCII case mapping). -/
def jsToLower (s : String) : String := String.mk (s.data.map asciiLowerChar)

def joinSep (sep : String) : List String → String
  | [] => ""
  | [x] => x
  | x :: y :: xs => x ++ sep ++ joinSep sep (y :: xs)

def isAsciiLetter (c : Char) : Bool :=
  ('a' ≤ c ∧ c ≤ 'z') ∨ ('A' ≤ c ∧ c ≤ 'Z')

def isAsciiDigit (c : Char) : Bool := '0' ≤ c ∧ c ≤ '9'

/-- The characters a `.` in a JavaScript regular expression does not match. -/
def isLineTerminator (c : Char) : Bool :=
  c = '\n' ∨ c = '\r' ∨ c = '\u2028' ∨ c = '\u2029'

/-! ## JavaScript `Number(string)` (ECMA-262 StringToNumber)

`none` stands for every non-finite outcome (`NaN`, `±Infinity`): the caster
only ever tests `Number.isFinite`, so the distinction never matters. -/

def decDigitsVal (cs : List Char) : Nat :=
  cs.foldl (fun n c => 10 * n + (c.toNat - 48)) 0

def radixDigitVal (radix : Nat) (c : Char) : Option Nat :=
  let v :=
    if isAsciiDigit c then some (c.toNat - 48)
    else if 'a' ≤ c ∧ c ≤ 'f' then some (c.toNat - 87)
    else if 'A' ≤ c ∧ c ≤ 'F' then some (c.toNat - 55)
    else none
  match v with
  | some n => if n < radix then some n else none
  | none => none

/-- Value of a non-empty all-valid digit string in the given radix. -/
def radixVal : Nat → List Char → Nat → Option Nat
  | _, [], _ => none
  | radix, [c], acc => (radixDigitVal radix c).map (fun d => radix * acc + d)
  | radix, c :: cs, acc =>
    match radixDigitVal radix c with
    | some d => radixVal radix cs (radix * acc + d)
    | none => none

def natDigits (cs : List Char) : Option Nat :=
  if cs ≠ [] ∧ cs.all isAsciiDigit then some (decDigitsVal cs) else none

def signedNat (cs : List Char) : Option Int :=
  match cs with
  | '+' :: r => (natDigits r).map Int.ofNat
  | '-' :: r => (natDigits r).map (fun n => -(Int.ofNat n))
  | r => (natDigits r).map Int.ofNat

/-- The optional exponent tail of a decimal literal; `[]` means exponent 0,
anything that is not a well-formed `e±digits` tail means `NaN`. -/
def parseExpPart (cs : List Char) : Option Int :=
  match cs with
  | [] => some 0
  | c :: r => if c = 'e' ∨ c = 'E' then signedNat r else none

def mkDecRat (neg : Bool) (ip fp : List Char) (e : Int) : Rat :=
  let m : Nat := decDigitsVal (ip ++ fp)
  let mi : Int := if neg then -(Int.ofNat m) else Int.ofNat m
  let e' : Int := e - Int.ofNat fp.length
  if 0 ≤ e' then mkRat (mi * Int.ofNat ((10 : Nat) ^ e'.toNat)) 1
  else mkRat mi ((10 : Nat) ^ (-e').toNat)

def decUnsigned (neg : Bool) (cs : List Char) : Option Rat :=
  if cs = "Infinity".data then none
  else
    let ip := cs.takeWhile isAsciiDigit
    let r1 := cs.dropWhile isAsciiDigit
    match r1 with
    | '.' :: r2 =>
      let fp := r2.takeWhile isAsciiDigit
      let r3 := r2.dropWhile isAsciiDigit
      if ip = [] ∧ fp = [] then none
      else (parseExpPart r3).map (mkDecRat neg ip fp)
    | _ => if ip = [] then none else (parseExpPart r1).map (mkDecRat neg ip [])

def decSigned (cs : List Char) : Option Rat :=
  match cs with
  | '+' :: r => decUnsigned false r
  | '-' :: r => decUnsigned true r
  | r => decUnsigned false r

/-- The exact mathematical value of a JavaScript numeric string, before the
binary64 overflow check: trims, maps the empty remainder to `0`, accepts
hex/octal/binary integer literals and signed decimal literals with optional
fraction and exponent, and yields `none` for `NaN` and literal
`±Infinity`. -/
def jsStringToNumberExact (s : String) : Option Rat :=
  match jsTrimList s.data with
  | [] => some 0
  | '0' :: c :: rest =>
    if c = 'x' ∨ c = 'X' then (radixVal 16 rest 0).map (fun n => mkRat (Int.ofNat n) 1)
    else if c = 'o' ∨ c = 'O' then (radixVal 8 rest 0).map (fun n => mkRat (Int.ofNat n) 1)
    else if c = 'b' ∨ c = 'B' then (radixVal 2 rest 0).map (fun n => mkRat (Int.ofNat n) 1)
    else decSigned ('0' :: c :: rest)
  | cs => decSigned cs

/-- The smallest magnitude that binary64 round-to-nearest-even sends to
Infinity: the midpoint just above the largest finite double,
`2^1024 - 2^970` (written as a literal so that it evaluates without deep
recursion; `doubleOverflow_eq` checks the value).  Everything with `|x|`
at or above it overflows. -/
def doubleOverflow : Nat := 179769313486231580793728971405303415079934132710037826936173778980444968292764750946649017977587207096330286416692887910946555547851940402630657488671505820681908902000708383676273854845817711531764475730270069855571366959622842914819860834936475292719074168444365510704342711559699508093042880177904174497792

theorem doubleOverflow_eq : doubleOverflow = 2 ^ 1024 - 2 ^ 970 := by
  norm_num [doubleOverflow]

/-- `|q| < doubleOverflow`, i.e. `q` rounds to a finite binary64. -/
def fitsDouble (q : Rat) : Bool := q.num.natAbs < doubleOverflow * q.den

/-- Model of JavaScript `Number(s)` restricted to finite results: the exact
value of the literal when it rounds to a finite double, `none` for
everything non-finite (`NaN`, literal `±Infinity`, and overflow to
`±Infinity`). -/
def jsStringToNumber (s : String) : Option Rat :=
  match jsStringToNumberExact s with
  | some q => if fitsDouble q then some q else none
  | none => none

/-! ## The JavaScript value tree -/

mutual

/-- A JavaScript runtime value as it can occur in the parser's output tree.
`vDate`, `vFile` and `vArr` carry a (normally empty) list of string-keyed own
properties in addition to their payload, because every `typeof "object"`
value can gain properties and the source's `setDeep` descends into all of
them.  `vUndef` is the value `undefined`; it only occurs as an array hole. -/
inductive JSValue where
  | vStr (s : String)
  | vNum (q : Rat)
  | vBool (b : Bool)
  | vNull
  | vUndef
  | vDate (t : Int) (props : Props)
  | vFile (handle : Nat) (props : Props)
  | vArr (elems : VList) (props : Props)
  | vObj (props : Props)
  deriving DecidableEq

/-- The element list of a JavaScript array. -/
inductive VList where
  | nil
  | cons (v : JSValue) (tl : VList)
  deriving DecidableEq

/-- The string-keyed own properties of a JavaScript object, in insertion
order. -/
inductive Props where
  | nil
  | cons (k : String) (v : JSValue) (tl : Props)
  deriving DecidableEq

end

def Props.lookup : Props → String → Option JSValue
  | .nil, _ => none
  | .cons k v tl, key => if k = key then some v else tl.lookup key

/-- JavaScript property write on an object: overwrite in place if the key
exists, otherwise append in insertion order. -/
def Props.set : Props → String → JSValue → Props
  | .nil, key, v => .cons key v .nil
  | .cons k w tl, key, v =>
    if k = key then .cons k v tl else .cons k w (tl.set key v)

def VList.length : VList → Nat
  | .nil => 0
  | .cons _ tl => 1 + tl.length

def VList.get : VList → Nat → Option JSValue
  | .nil, _ => none
  | .cons v _, 0 => some v
  | .cons _ tl, n + 1 => tl.get n

/-- Element write at an index, extending the array with holes (`undefined`)
when the index is at or past the end, as JavaScript does. -/
def VList.setPad : VList → Nat → JSValue → VList
  | .nil, 0, v => .cons v .nil
  | .nil, n + 1, v => .cons .vUndef (VList.setPad .nil n v)
  | .cons _ tl, 0, v => .cons v tl
  | .cons hd tl, n + 1, v => .cons hd (tl.setPad n v)

/-- Truncate or hole-extend to the given length (JavaScript `arr.length = n`). -/
def VList.resize : VList → Nat → VList
  | _, 0 => .nil
  | .nil, n + 1 => .cons .vUndef (VList.resize .nil n)
  | .cons hd tl, n + 1 => .cons hd (tl.resize n)

def VList.append : VList → VList → VList
  | .nil, l => l
  | .cons v tl, l => .cons v (tl.append l)

def VList.ofList : List JSValue → VList
  | [] => .nil
  | v :: vs => .cons v (VList.ofList vs)

/-- `truthy ∧ typeof v = "object"`: the values the deep walkers descend
into.  (`null` has `typeof "object"` but is falsy.) -/
def JSValue.isObjKind : JSValue → Bool
  | .vDate _ _ => true
  | .vFile _ _ => true
  | .vArr _ _ => true
  | .vObj _ => true
  | _ => false

/-- JavaScript `Array.isArray`. -/
def JSValue.isArrayV : JSValue → Bool
  | .vArr _ _ => true
  | _ => false

def JSValue.arrElems : JSValue → VList
  | .vArr es _ => es
  | _ => .nil

/-- JavaScript array spread `[...v]`.  Every call site spreads a value that
the `array` branch of the caster produced, which is always an array; the
fallback line is unreachable there. -/
def spreadElems : JSValue → VList
  | .vArr es _ => es
  | v => .cons v .nil

/-- A canonical array-index string: the decimal numeral of some
`i < 2^32 - 1` with no leading zero. -/
def isCanonicalIndex (cs : List Char) : Bool :=
  cs ≠ [] ∧ cs.all isAsciiDigit ∧ (cs = ['0'] ∨ cs.head? ≠ some '0') ∧
    decDigitsVal cs < 4294967295

/-- The errors a parse invocation can raise: the five the source itself
throws (each carrying the offending raw string — the source throws `Error`
objects whose messages embed it), plus the `RangeError` the JavaScript
runtime raises when a deep write assigns an invalid value to the `length`
property of an array (`invalidArrayLength`). -/
inductive ParseError where
  | invalidFieldName (raw : String)
  | invalidNumber (raw : String)
  | invalidBoolean (raw : String)
  | invalidDate (raw : String)
  | invalidJson (raw : String)
  | invalidArrayLength
  deriving DecidableEq

/-- JavaScript `ToNumber` of a one-element array's joined string (an
array's `ToPrimitive` is `toString`, which joins the elements with `","`):
a stored string parses as a numeric string, a stored number round-trips
through its rendering (exact in this model, which carries exact rationals),
`null`/`undefined` join as the empty string (hence `0`), a nested array
joins recursively, and booleans, dates, files and plain objects stringify
to something non-numeric (`NaN`).  Two or more elements always contain the
`","`, hence `NaN`; an empty array joins to `""`, hence `0`. -/
def vlistJoinNumber : VList → Option Rat
  | .nil => some (mkRat 0 1)
  | .cons (.vStr s) .nil => jsStringToNumber s
  | .cons (.vNum q) .nil => some q
  | .cons .vNull .nil => some (mkRat 0 1)
  | .cons .vUndef .nil => some (mkRat 0 1)
  | .cons (.vArr es _) .nil => vlistJoinNumber es
  | .cons _ .nil => none
  | .cons _ (.cons _ _) => none

/-- JavaScript `ToNumber`, with `none` for every non-finite outcome
(`NaN`/`±Infinity`), as array-length assignment needs it: numbers are
themselves, strings go through `Number(string)`, booleans are `1`/`0`,
`null` is `0`, `undefined` is `NaN`; objects go through
`ToPrimitive(·, number)`: a `Date`'s `valueOf` is its timestamp, an array
stringifies to its join (`vlistJoinNumber`), and files and plain objects
stringify to `"[object …]"`, i.e. `NaN`. -/
def toNumber : JSValue → Option Rat
  | .vNum q => some q
  | .vStr s => jsStringToNumber s
  | .vBool b => some (if b then mkRat 1 1 else mkRat 0 1)
  | .vNull => some (mkRat 0 1)
  | .vUndef => none
  | .vDate t _ => some (mkRat t 1)
  | .vFile _ _ => none
  | .vObj _ => none
  | .vArr es _ => vlistJoinNumber es

def natRat (n : Nat) : Rat := mkRat (Int.ofNat n) 1

/-- A rational that is a valid JavaScript array length (a non-negative
integer below `2^32`). -/
def ratIsLength (q : Rat) : Option Nat :=
  if q.den = 1 ∧ 0 ≤ q.num ∧ q.num < 4294967296 then some q.num.toNat else none

/-- Reading a stored hole yields `undefined`, i.e. absence. -/
def normUndef : Option JSValue → Option JSValue
  | some .vUndef => none
  | o => o

/-- JavaScript property read `v[p]` for the values the source dereferences
(the deep walkers only dereference `typeof "object"` values).  On arrays,
`"length"` reads the length, canonical index strings read elements, and
everything else reads the string-keyed property bag. -/
def getProp : JSValue → String → Option JSValue
  | .vObj props, p => normUndef (props.lookup p)
  | .vArr es props, p =>
    if p = "length" then some (.vNum (natRat es.length))
    else if isCanonicalIndex p.data then normUndef (es.get (decDigitsVal p.data))
    else normUndef (props.lookup p)
  | .vDate _ props, p => normUndef (props.lookup p)
  | .vFile _ props, p => normUndef (props.lookup p)
  | _, _ => none

/-- JavaScript property write `v[p] = w`.  Writes to primitives are silently
dropped (sloppy mode).  On arrays, a canonical index writes an element
(hole-extending); `"length"` is an array-length assignment, which coerces
the value with `ToNumber` and resizes when the result is a valid length (a
non-negative integer below `2^32`) and otherwise raises `RangeError`
(`.error .invalidArrayLength`) — reachable here through user-chosen field
names such as `a.length` over a previously stored array; any other key
writes the property bag. -/
def setProp : JSValue → String → JSValue → Except ParseError JSValue
  | .vObj props, p, v => .ok (.vObj (props.set p v))
  | .vArr es props, p, v =>
    if p = "length" then
      match toNumber v with
      | some q =>
        match ratIsLength q with
        | some n => .ok (.vArr (es.resize n) props)
        | none => .error .invalidArrayLength
      | none => .error .invalidArrayLength
    else if isCanonicalIndex p.data then
      .ok (.vArr (es.setPad (decDigitsVal p.data) v) props)
    else .ok (.vArr es (props.set p v))
  | .vDate t props, p, v => .ok (.vDate t (props.set p v))
  | .vFile h props, p, v => .ok (.vFile h (props.set p v))
  | prim, _, _ => .ok prim

/-! ## The repository's data types (`src/index.ts`) -/

structure ParseOptions where
  ignoreEmpty : Bool
  strict : Bool
  defaultArraySeparator : String
  deriving DecidableEq

def DEFAULT_OPTIONS : ParseOptions := ⟨false, false, ","⟩

/-- `ParsedFieldName`.  The source casts the matched token to its
`FieldType` union without checking membership, so the type is a plain
string here, exactly as at runtime. -/
structure ParsedFieldName where
  type : String
  key : String
  arraySeparator : Option String
  deriving DecidableEq

inductive ListVariant where
  | key
  | value
  deriving DecidableEq

structure ListEntry where
  variant : ListVariant
  name : String
  index : String
  value : String
  deriving DecidableEq

/-- An input entry value: a string or an opaque binary attachment
(a `File`). -/
inductive RawValue where
  | str (s : String)
  | file (handle : Nat)
  deriving DecidableEq

/-- The host-environment functions the caster calls but that are not code
of this repository: `new Date(s)` (`none` = Invalid Date) and
`JSON.parse(s)` (`none` = parse exception). Theorems quantify over them. -/
structure JSEnv where
  parseDate : String → Option Int
  parseJSON : String → Option JSValue

/-- JavaScript `String(rawValue ?? "")` for the two value shapes. -/
def rawValueToString : RawValue → String
  | .str s => s
  | .file _ => "[object File]"

/-! ## Field-name grammar parser -/

/-- Model of `left.match(/^([a-z]+)(\((.*)\))?$/i)`: a non-empty ASCII
letter prefix, optionally followed by a parenthesised payload that ends the
string and contains no line terminator (the `.` of the pattern excludes
them); greediness makes the payload run to the final `)`. Returns the
letters and the payload. -/
def matchTypeToken (left : String) : Option (String × Option String) :=
  let cs := left.data
  let letters := cs.takeWhile isAsciiLetter
  let rest := cs.dropWhile isAsciiLetter
  if letters = [] then none
  else
    match rest with
    | [] => some (String.mk letters, none)
    | '(' :: inner =>
      match inner.reverse with
      | ')' :: revMid =>
        let mid := revMid.reverse
        if mid.all (fun c => ¬ isLineTerminator c) then
          some (String.mk letters, some (String.mk mid))
        else none
      | _ => none
    | _ => none

/-- `parseFieldName` from `src/index.ts`. -/
def parseFieldName (raw : String) : ParsedFieldName :=
  let typeSplit := jsSplitOn raw "::"
  match typeSplit with
  | [] => ⟨"string", raw, none⟩
  | [_] => ⟨"string", raw, none⟩
  | left :: restParts =>
    let key := joinSep "::" restParts
    match matchTypeToken left with
    | none => ⟨"string", raw, none⟩
    | some (letters, payload) =>
      let ty := jsToLower letters
      if ty = "array" then ⟨ty, key, payload⟩
      else ⟨ty, key, none⟩

/-! ## Small helpers from the source -/

/-- `isEmptyValue` from `src/index.ts`: `v === "" || v === null ||
v === undefined`. -/
def isEmptyValue : JSValue → Bool
  | .vStr s => s = ""
  | .vNull => true
  | .vUndef => true
  | _ => false

/-- `splitArrayValue` from `src/index.ts`. -/
def splitArrayValue (value sep : String) : List String :=
  if jsTrim value = "" then []
  else ((jsSplit value sep).map jsTrim).filter (fun x => x.data ≠ [])

/-- `parseBoolean` from `src/index.ts`. -/
def parseBoolean (value : String) : Option Bool :=
  let v := jsToLower (jsTrim value)
  if v = "true" ∨ v = "1" ∨ v = "yes" ∨ v = "on" then some true
  else if v = "false" ∨ v = "0" ∨ v = "no" ∨ v = "off" then some false
  else none

/-- `isPlainObject` from `src/index.ts`: non-null, `typeof "object"`, not an
array, not a `Date`.  Note that a `File` instance passes all four tests. -/
def isPlainObject : JSValue → Bool
  | .vObj _ => true
  | .vFile _ _ => true
  | _ => false

def isPlainObjectO : Option JSValue → Bool
  | some v => isPlainObject v
  | none => false

/-! ## Deep-path assignor -/

/-- `path.split(".").filter(Boolean)`. -/
def pathParts (path : String) : List String :=
  (jsSplitOn path ".").filter (fun p => p ≠ "")

/-- The intermediate-segment read of `setDeep`: the node the walk continues
into after `if (!cur[p] || typeof cur[p] !== "object") cur[p] = {}` — the
existing child when it is a truthy `typeof "object"` value, a fresh empty
mapping otherwise. -/
def descendChild (cur : JSValue) (p : String) : JSValue :=
  match getProp cur p with
  | some c => if c.isObjKind then c else .vObj .nil
  | none => .vObj .nil

def setDeepGo : JSValue → List String → JSValue → Except ParseError JSValue
  | cur, [], _ => .ok cur
  | cur, [p], v => setProp cur p v
  | cur, p :: q :: rest, v =>
    match setDeepGo (descendChild cur p) (q :: rest) v with
    | .error e => .error e
    | .ok child => setProp cur p child

/-- `setDeep` from `src/index.ts`: walk the dot-path; at each intermediate
segment, replace the child by `{}` exactly when `!cur[p] ||
typeof cur[p] !== "object"`, i.e. when it is missing, falsy, or a
primitive; then write the final segment.  A write into an array's `length`
slot along the way raises `RangeError` (an intermediate replacement writes
`{}` there, which never coerces to a length; the remaining deep writes land
on freshly created mappings and cannot raise, so the functional
inner-first evaluation order raises exactly when the source's outer-first
mutation does). -/
def setDeep (obj : JSValue) (path : String) (value : JSValue) :
    Except ParseError JSValue :=
  match pathParts path with
  | [] => .ok obj
  | parts => setDeepGo obj parts value

def getDeepGo : Option JSValue → List String → Option JSValue
  | cur, [] => cur
  | cur, p :: rest =>
    match cur with
    | some c => if c.isObjKind then getDeepGo (getProp c p) rest else none
    | none => none

/-- `getDeep` from `src/index.ts`: walk the dot-path, returning `undefined`
as soon as the current node is falsy or not `typeof "object"`; with no
segments the walk returns the root itself. -/
def getDeep (obj : JSValue) (path : String) : Option JSValue :=
  getDeepGo (some obj) (pathParts path)

/-- In-place mutation of the value sitting at a dot-path, used to model
`container[key] = v` after `container = getDeep(target, path)`:
walk exactly as `getDeep` does and rebuild the spine; if the walk dies the
tree is unchanged (the mutated `container` is then `undefined`, which the
caller's `isPlainObject` guard rejects).  The spine writebacks replace an
existing `typeof "object"` child, which on an array is an element or bag
slot (an array's `length` slot holds a number, so the walk would already
have died), hence they cannot raise; the type is fallible only because
`setProp` is. -/
def mutateDeep : JSValue → List String → (JSValue → Except ParseError JSValue) →
    Except ParseError JSValue
  | cur, [], f => f cur
  | cur, p :: rest, f =>
    if cur.isObjKind then
      match getProp cur p with
      | some c =>
        match mutateDeep c rest f with
        | .error e => .error e
        | .ok c2 => setProp cur p c2
      | none => .ok cur
    else .ok cur

/-! ## List-pair assembler -/

/-- The `valueMap : Map<string, string>` of `applyListEntries`, used only
through `get`/`set`. -/
def VMap := String → Option String

def vmapEmpty : VMap := fun _ => none

def vmapSet (m : VMap) (k v : String) : VMap :=
  fun q => if q = k then some v else m q

/-- The body of the `for (const keyEntry of keys)` loop of
`applyListEntries`: skip whitespace-only key strings; make sure a plain
object sits at the group path, re-resolve, and hang the property on it
(`matchedValue` is the `valueMap` lookup with `?? ""`). -/
def listStep (vmap : VMap) (target : JSValue) (ke : ListEntry) :
    Except ParseError JSValue :=
  if jsTrim ke.value = "" then .ok target
  else
    match (if isPlainObjectO (getDeep target ke.name) then .ok target
           else setDeep target ke.name (.vObj .nil)) with
    | .error e => .error e
    | .ok target1 =>
      if isPlainObjectO (getDeep target1 ke.name) then
        mutateDeep target1 (pathParts ke.name)
          (fun c => setProp c ke.value
            (.vStr ((vmap (ke.name ++ "::" ++ ke.index)).getD "")))
      else .ok target1

/-- `applyListEntries` from `src/index.ts`; a raise inside the loop aborts
the remaining key-entries, as a thrown `RangeError` would. -/
def applyListEntries (entries : List ListEntry) (target : JSValue) :
    Except ParseError JSValue :=
  if entries = [] then .ok target
  else
    let keys := entries.filter (fun e => e.variant = ListVariant.key)
    let values := entries.filter (fun e => e.variant = ListVariant.value)
    let valueMap := values.foldl
      (fun m ve => vmapSet m (ve.name ++ "::" ++ ve.index) ve.value) vmapEmpty
    keys.foldlM (listStep valueMap) target

/-- `parseListEntry` from `src/index.ts`. -/
def parseListEntry (rawName : String) (rawValue : RawValue) (opts : ParseOptions) :
    Except ParseError (Option ListEntry) :=
  let parts := jsSplitOn rawName "::"
  if parts.length < 4 then
    if opts.strict then .error (.invalidFieldName rawName) else .ok none
  else
    let variant := jsToLower (parts.getD 1 "")
    if variant ≠ "key" ∧ variant ≠ "value" then
      if opts.strict then .error (.invalidFieldName rawName) else .ok none
    else
      let index := parts.getLast?.getD ""
      let name := joinSep "::" ((parts.drop 2).dropLast)
      if name = "" ∨ index = "" then
        if opts.strict then .error (.invalidFieldName rawName) else .ok none
      else
        .ok (some ⟨if variant = "key" then .key else .value, name, index,
          rawValueToString rawValue⟩)

/-! ## Value caster -/

/-- `castValue` from `src/index.ts`. -/
def castValue (env : JSEnv) (type : String) (raw : String) (opts : ParseOptions)
    (arraySeparator : Option String) : Except ParseError JSValue :=
  let value := raw
  if type = "string" then .ok (.vStr value)
  else if type = "number" then
    match jsStringToNumber value with
    | some n => .ok (.vNum n)
    | none =>
      if opts.strict then .error (.invalidNumber value) else .ok (.vStr value)
  else if type = "boolean" then
    match parseBoolean value with
    | some b => .ok (.vBool b)
    | none =>
      if opts.strict then .error (.invalidBoolean value) else .ok (.vStr value)
  else if type = "date" then
    match env.parseDate value with
    | some t => .ok (.vDate t .nil)
    | none =>
      if opts.strict then .error (.invalidDate value) else .ok (.vStr value)
  else if type = "json" then
    match env.parseJSON value with
    | some v => .ok v
    | none =>
      if opts.strict then .error (.invalidJson value) else .ok (.vStr value)
  else if type = "array" then
    let sep := arraySeparator.getD opts.defaultArraySeparator
    .ok (.vArr (VList.ofList ((splitArrayValue value sep).map JSValue.vStr)) .nil)
  else .ok (.vStr value)

/-! ## Multi-value merger and orchestrator -/

/-- The multi-value merge-and-assign block of the entry loop of
`parseTypedFormData` (the `🔥 Multi-values` comment through the end of the
loop body). -/
def assignMerge (out : JSValue) (key : String) (type : String) (parsed : JSValue) :
    Except ParseError JSValue :=
  if type = "array" then
    match getDeep out key with
    | some existing =>
      if existing.isArrayV then
        setDeep out key (.vArr (existing.arrElems.append (spreadElems parsed)) .nil)
      else
        setDeep out key (.vArr (.cons existing (spreadElems parsed)) .nil)
    | none => setDeep out key parsed
  else
    match getDeep out key with
    | none => setDeep out key parsed
    | some existing =>
      if existing.isArrayV then
        setDeep out key (.vArr (existing.arrElems.append (.cons parsed .nil)) .nil)
      else
        setDeep out key (.vArr (.cons existing (.cons parsed .nil)) .nil)

/-- One iteration of the entry loop of `parseTypedFormData`, acting on the
output tree and the buffered list entries. -/
def processEntry (env : JSEnv) (opts : ParseOptions)
    (acc : JSValue × List ListEntry) (entry : String × RawValue) :
    Except ParseError (JSValue × List ListEntry) :=
  let pf := parseFieldName entry.1
  if pf.type = "list" then
    match parseListEntry entry.1 entry.2 opts with
    | .error e => .error e
    | .ok none => .ok acc
    | .ok (some le) => .ok (acc.1, acc.2 ++ [le])
  else
    match entry.2 with
    | .file h =>
      match setDeep acc.1 pf.key (.vFile h .nil) with
      | .error e => .error e
      | .ok out2 => .ok (out2, acc.2)
    | .str s =>
      if opts.ignoreEmpty ∧ jsTrim s = "" then .ok acc
      else
        match castValue env pf.type s opts pf.arraySeparator with
        | .error e => .error e
        | .ok parsed =>
          match assignMerge acc.1 pf.key pf.type parsed with
          | .error e => .error e
          | .ok out2 => .ok (out2, acc.2)

def vlFilterNonEmpty : VList → VList
  | .nil => .nil
  | .cons v tl =>
    if isEmptyValue v then vlFilterNonEmpty tl else .cons v (vlFilterNonEmpty tl)

mutual

/-- The `clean` closure of `parseTypedFormData`: arrays are replaced by a
fresh array of their non-empty elements (no recursion into elements, custom
array properties lost); every other `typeof "object"` value keeps its
identity and has each property cleaned recursively; primitives pass
through. -/
def cleanValue : JSValue → JSValue
  | .vArr es _ => .vArr (vlFilterNonEmpty es) .nil
  | .vObj props => .vObj (cleanProps props)
  | .vDate t props => .vDate t (cleanProps props)
  | .vFile h props => .vFile h (cleanProps props)
  | v => v

def cleanProps : Props → Props
  | .nil => .nil
  | .cons k v tl => .cons k (cleanValue v) (cleanProps tl)

end

/-- `parseTypedFormData` from `src/index.ts`, over the adapter-produced
entry sequence. -/
def parseTypedFormData (env : JSEnv) (entries : List (String × RawValue))
    (opts : ParseOptions) : Except ParseError JSValue :=
  match entries.foldlM (processEntry env opts) (JSValue.vObj .nil, []) with
  | .error e => .error e
  | .ok (out, listEntries) =>
    match applyListEntries listEntries out with
    | .error e => .error e
    | .ok out1 => .ok (if opts.ignoreEmpty then cleanValue out1 else out1)

deriving instance DecidableEq for Except

/-- A host environment in which every date string is invalid and every JSON
string is malformed; used to instantiate environment-quantified theorems at
concrete inputs. -/
def envNone : JSEnv := ⟨fun _ => none, fun _ => none⟩

/-! ## Spec-side definitions

These definitions transcribe what the *claims* (and the spec sentences they
come from) say, to be compared against the definitions transcribed from the
source.  Each is used by exactly one claim. -/

/-- "a string-keyed mapping" in the spec's data model: an internal mapping
node, as opposed to arrays, dates, attachments and scalars. -/
def isMapping : JSValue → Bool
  | .vObj _ => true
  | _ => false

def isMappingO : Option JSValue → Bool
  | some v => isMapping v
  | none => false

/-- The intermediate-segment node claim C2 prescribes descending into: the
existing child only when it is a string-keyed mapping, an empty mapping
otherwise (arrays, dates and scalars stored there are overwritten). -/
def descendChildSpecC2 (cur : JSValue) (p : String) : JSValue :=
  match getProp cur p with
  | some (.vObj props) => JSValue.vObj props
  | _ => .vObj .nil

/-- Deep write exactly as claim C2 states it: the walk creates an empty
mapping at each intermediate segment whenever the node there is missing or
is not itself a string-keyed mapping — in particular an array, a date or a
scalar stored there is overwritten — and then sets the final segment. -/
def setDeepGoSpecC2 : JSValue → List String → JSValue → Except ParseError JSValue
  | cur, [], _ => .ok cur
  | cur, [p], v => setProp cur p v
  | cur, p :: q :: rest, v =>
    match setDeepGoSpecC2 (descendChildSpecC2 cur p) (q :: rest) v with
    | .error e => .error e
    | .ok child => setProp cur p child

def setDeepSpecC2 (obj : JSValue) (path : String) (value : JSValue) :
    Except ParseError JSValue :=
  match pathParts path with
  | [] => .ok obj
  | parts => setDeepGoSpecC2 obj parts value

/-- The intermediate-segment node the amended claim C2 prescribes descending
into: the existing child when it is a mapping, array, date or attachment,
an empty mapping when it is missing, `null`, `undefined`, or a primitive
string/number/boolean. -/
def descendChildAmendedC2 (cur : JSValue) (p : String) : JSValue :=
  match getProp cur p with
  | some (.vObj props) => JSValue.vObj props
  | some (.vArr es props) => JSValue.vArr es props
  | some (.vDate t props) => JSValue.vDate t props
  | some (.vFile h props) => JSValue.vFile h props
  | _ => .vObj .nil

/-- Deep write as amended: descend into any `typeof "object"` intermediate
node, overwrite everything else with an empty mapping, then set the final
segment. -/
def setDeepGoAmendedC2 : JSValue → List String → JSValue → Except ParseError JSValue
  | cur, [], _ => .ok cur
  | cur, [p], v => setProp cur p v
  | cur, p :: q :: rest, v =>
    match setDeepGoAmendedC2 (descendChildAmendedC2 cur p) (q :: rest) v with
    | .error e => .error e
    | .ok child => setProp cur p child

def setDeepAmendedC2 (obj : JSValue) (path : String) (value : JSValue) :
    Except ParseError JSValue :=
  match pathParts path with
  | [] => .ok obj
  | parts => setDeepGoAmendedC2 obj parts value

/-! ## Claim C2 -/

theorem descendChildAmendedC2_eq (cur : JSValue) (p : String) :
    descendChildAmendedC2 cur p = descendChild cur p := by
  unfold descendChildAmendedC2 descendChild
  cases getProp cur p with
  | none => rfl
  | some c => cases c <;> rfl

theorem setDeepGo_eq_amended (v : JSValue) :
    ∀ (parts : List String) (cur : JSValue),
    setDeepGo cur parts v = setDeepGoAmendedC2 cur parts v
  | [], _ => rfl
  | [_], _ => rfl
  | p :: q :: rest, cur => by
    unfold setDeepGo setDeepGoAmendedC2
    rw [descendChildAmendedC2_eq,
      setDeepGo_eq_amended v (q :: rest) (descendChild cur p)]

/-- Claim C2 (amended): a deep write walks the dot-path creating an empty
mapping at an intermediate segment exactly when the node there is missing,
`null`, `undefined`, or a primitive string/number/boolean; any
`typeof "object"` node (mapping, array, date or attachment) is descended
into instead of being overwritten, and the final segment is then set. -/
theorem deep_write_amended (obj : JSValue) (path : String) (value : JSValue) :
    setDeep obj path value = setDeepAmendedC2 obj path value := by
  unfold setDeep setDeepAmendedC2
  cases pathParts path with
  | nil => rfl
  | cons p rest => exact setDeepGo_eq_amended value (p :: rest) obj

/-- Claim C2 is refuted on the code: with a date stored at the intermediate
segment `a` of the path `a.b`, the source's `setDeep` descends into the
date object and hangs the property `b` on it, while the claim demands the
date be overwritten by an empty mapping; the two results differ. -/
theorem deep_write_overwrite_refuted :
    setDeep (.vObj (.cons "a" (.vDate 0 .nil) .nil)) "a.b" (.vStr "v")
      = .ok (.vObj (.cons "a" (.vDate 0 (.cons "b" (.vStr "v") .nil)) .nil))
    ∧ setDeepSpecC2 (.vObj (.cons "a" (.vDate 0 .nil) .nil)) "a.b" (.vStr "v")
      = .ok (.vObj (.cons "a" (.vObj (.cons "b" (.vStr "v") .nil)) .nil))
    ∧ setDeep (.vObj (.cons "a" (.vDate 0 .nil) .nil)) "a.b" (.vStr "v")
      ≠ setDeepSpecC2 (.vObj (.cons "a" (.vDate 0 .nil) .nil)) "a.b" (.vStr "v") := by
  refine ⟨by decide, by decide, by decide⟩

/-! ## Claim C6 -/

/-- Claim C6 (amended): a deep write along a path with zero segments (the
empty string, or only dots) leaves the tree unchanged, and a deep read
along such a path yields the tree itself — not absent. -/
theorem empty_path_behaviour (t v : JSValue) (p : String)
    (h : pathParts p = []) :
    setDeep t p v = .ok t ∧ getDeep t p = some t := by
  constructor
  · unfold setDeep; rw [h]
  · unfold getDeep; rw [h]; rfl

theorem empty_path_behaviour_witness :
    setDeep (.vObj (.cons "a" (.vStr "x") .nil)) "..." (.vStr "v")
        = .ok (.vObj (.cons "a" (.vStr "x") .nil))
      ∧ getDeep (.vObj (.cons "a" (.vStr "x") .nil)) "..."
        = some (.vObj (.cons "a" (.vStr "x") .nil)) :=
  empty_path_behaviour (.vObj (.cons "a" (.vStr "x") .nil)) (.vStr "v") "..." (by decide)

/-- Claim C6 is refuted on the code: the write half holds, but a deep read
with zero path segments returns the current tree (`getDeep`'s loop body
never runs and the root is returned as-is), not absent. -/
theorem empty_path_read_refuted :
    setDeep (.vObj (.cons "a" (.vStr "x") .nil)) "" (.vStr "v")
      = .ok (.vObj (.cons "a" (.vStr "x") .nil))
    ∧ getDeep (.vObj (.cons "a" (.vStr "x") .nil)) ""
      = some (.vObj (.cons "a" (.vStr "x") .nil))
    ∧ getDeep (.vObj (.cons "a" (.vStr "x") .nil)) "" ≠ none := by
  refine ⟨by decide, by decide, by decide⟩

/-! ## Claim C9 -/

/-- Claim C9: casting an empty or whitespace-only string with declared type
`number` succeeds with the number `0` for every strict setting and every
host environment: `Number(s)` trims to the empty string, which evaluates to
`0`, a finite value, so the failure branch is never taken. -/
theorem empty_number_cast (env : JSEnv) (s : String) (opts : ParseOptions)
    (sep : Option String) (h : jsTrim s = "") :
    castValue env "number" s opts sep = .ok (.vNum 0) := by
  have hl : jsTrimList s.data = [] := by
    have := congrArg String.data h
    simpa [jsTrim] using this
  have hnum : jsStringToNumber s = some 0 := by
    unfold jsStringToNumber jsStringToNumberExact
    rw [hl]
    rfl
  unfold castValue
  simp [hnum]

theorem empty_number_cast_witness :
    castValue envNone "number" " \t " ⟨false, true, ","⟩ none = .ok (.vNum 0) :=
  empty_number_cast envNone " \t " ⟨false, true, ","⟩ none (by decide)

/-! ## Claim C10 -/

/-- Claim C10: with `ignoreEmpty` on, a non-list entry with a string value
that is whitespace-only — not only exactly empty — is skipped during
assignment and contributes nothing, because the source trims the value
before comparing it with the empty string. -/
theorem ignore_empty_trims (env : JSEnv) (opts : ParseOptions)
    (acc : JSValue × List ListEntry) (name s : String)
    (hie : opts.ignoreEmpty = true)
    (hty : (parseFieldName name).type ≠ "list")
    (hws : jsTrim s = "") :
    processEntry env opts acc (name, .str s) = .ok acc := by
  unfold processEntry
  simp [hty, hie, hws]

theorem ignore_empty_trims_witness :
    processEntry envNone ⟨true, false, ","⟩ (.vObj .nil, []) ("string::x", .str "  ")
      = .ok (.vObj .nil, []) :=
  ignore_empty_trims envNone ⟨true, false, ","⟩ (.vObj .nil, []) "string::x" "  "
    rfl (by decide) (by decide)

/-! ## Claim C1 -/

/-- The merge rule as claim C1 (spec §4.4) states it: with no existing value
at the path, store the cast value as-is; with an existing array, append the
new value (for array-typed fields, concatenate the new elements after the
existing ones); with an existing non-array, replace it by an array holding
the existing value first, then the new value (or the new array's
elements). -/
def mergeSpecC1 (out : JSValue) (key : String) (type : String) (parsed : JSValue) :
    Except ParseError JSValue :=
  let newElems : VList :=
    if type = "array" then spreadElems parsed else .cons parsed .nil
  match getDeep out key with
  | none => setDeep out key parsed
  | some existing =>
    if existing.isArrayV then
      setDeep out key (.vArr (existing.arrElems.append newElems) .nil)
    else
      setDeep out key (.vArr (.cons existing newElems) .nil)

/-- Claim C1: for every non-list, non-attachment entry, the assignment step
follows the claimed merge rule — first occurrence stored as-is, existing
array appended to (array fields concatenate, preserving submission order),
existing non-array promoted to an array `[existing, new...]` — and the two
spec examples compute as stated. -/
theorem multi_value_merge :
    (∀ (out : JSValue) (key type : String) (parsed : JSValue),
      assignMerge out key type parsed = mergeSpecC1 out key type parsed)
    ∧ parseTypedFormData envNone
        [("string::x", .str "A"), ("string::x", .str "B")] DEFAULT_OPTIONS
      = .ok (.vObj (.cons "x"
          (.vArr (.cons (.vStr "A") (.cons (.vStr "B") .nil)) .nil) .nil))
    ∧ parseTypedFormData envNone
        [("array::tags", .str "a,b"), ("array::tags", .str "c,d")] DEFAULT_OPTIONS
      = .ok (.vObj (.cons "tags"
          (.vArr (VList.ofList [.vStr "a", .vStr "b", .vStr "c", .vStr "d"])
            .nil) .nil)) := by
  refine ⟨fun out key type parsed => ?_, by decide, by decide⟩
  unfold assignMerge mergeSpecC1
  by_cases hty : type = "array"
  all_goals simp only [hty, if_true, if_false, reduceIte]
  all_goals cases h : getDeep out key <;> simp

/-! ## Claim C7 -/

theorem vlFilterNonEmpty_idem : ∀ es : VList,
    vlFilterNonEmpty (vlFilterNonEmpty es) = vlFilterNonEmpty es
  | .nil => rfl
  | .cons v tl => by
    by_cases h : isEmptyValue v <;>
      simp [vlFilterNonEmpty, h, vlFilterNonEmpty_idem tl]

mutual

theorem cleanValue_idem_aux : ∀ v : JSValue,
    cleanValue (cleanValue v) = cleanValue v
  | .vStr _ => rfl
  | .vNum _ => rfl
  | .vBool _ => rfl
  | .vNull => rfl
  | .vUndef => rfl
  | .vArr es _ => by simp [cleanValue, vlFilterNonEmpty_idem es]
  | .vObj props => by simp [cleanValue, cleanProps_idem_aux props]
  | .vDate t props => by simp [cleanValue, cleanProps_idem_aux props]
  | .vFile h props => by simp [cleanValue, cleanProps_idem_aux props]

theorem cleanProps_idem_aux : ∀ l : Props,
    cleanProps (cleanProps l) = cleanProps l
  | .nil => rfl
  | .cons k v tl => by
    simp [cleanProps, cleanValue_idem_aux v, cleanProps_idem_aux tl]

end

/-- Claim C7: the `ignoreEmpty` cleanup pass (arrays drop empty-string /
null / absent elements, mappings — and every other object — are cleaned
recursively, scalars pass through) is idempotent: applying it twice yields
the same result as applying it once. -/
theorem cleanup_idempotent (v : JSValue) :
    cleanValue (cleanValue v) = cleanValue v :=
  cleanValue_idem_aux v

/-! ## Claim C4 -/

theorem isOk_ok {α : Type} (x : α) : (Except.ok x : Except ParseError α).isOk = true := rfl

theorem isOk_error {α : Type} (e : ParseError) :
    (Except.error e : Except ParseError α).isOk = false := rfl

theorem castValue_lenient_ok (env : JSEnv) (ty raw : String) (opts : ParseOptions)
    (sep : Option String) (h : opts.strict = false) :
    (castValue env ty raw opts sep).isOk = true := by
  unfold castValue
  simp only [h, Bool.false_eq_true, if_false]
  repeat' split
  all_goals rfl

theorem parseListEntry_lenient_ok (rawName : String) (rv : RawValue)
    (opts : ParseOptions) (h : opts.strict = false) :
    (parseListEntry rawName rv opts).isOk = true := by
  unfold parseListEntry
  simp only [h, Bool.false_eq_true, if_false]
  repeat' split
  all_goals rfl

/-- The unfolding equation of the intermediate-segment case of
`setDeepGo`. -/
theorem setDeepGo_cons (cur : JSValue) (p q : String) (rest : List String)
    (v : JSValue) :
    setDeepGo cur (p :: q :: rest) v
      = match setDeepGo (descendChild cur p) (q :: rest) v with
        | .error e => .error e
        | .ok child => setProp cur p child := rfl

/-- The only error the computation can carry is JavaScript's own
array-length `RangeError`; any `.ok` result is allowed. -/
def errOnlyLen {α : Type} : Except ParseError α → Prop
  | .error e => e = ParseError.invalidArrayLength
  | .ok _ => True

theorem errOnlyLen_error {α : Type} (x : Except ParseError α) (e : ParseError)
    (hx : errOnlyLen x) (h : x = .error e) : e = ParseError.invalidArrayLength := by
  rw [h] at hx
  exact hx

theorem setProp_errOnlyLen (c : JSValue) (p : String) (v : JSValue) :
    errOnlyLen (setProp c p v) := by
  cases c <;> unfold setProp
  case vArr es props =>
    repeat' split
    all_goals trivial
  all_goals trivial

theorem setDeepGo_errOnlyLen : ∀ (ps : List String) (c v : JSValue),
    errOnlyLen (setDeepGo c ps v)
  | [], _, _ => True.intro
  | [p], c, v => setProp_errOnlyLen c p v
  | p :: q :: rest, c, v => by
    rw [setDeepGo_cons]
    cases hx : setDeepGo (descendChild c p) (q :: rest) v with
    | error e =>
      have h2 := setDeepGo_errOnlyLen (q :: rest) (descendChild c p) v
      rw [hx] at h2
      exact h2
    | ok X => exact setProp_errOnlyLen c p X

theorem setDeep_errOnlyLen (t : JSValue) (path : String) (v : JSValue) :
    errOnlyLen (setDeep t path v) := by
  unfold setDeep
  cases pathParts path with
  | nil => exact True.intro
  | cons p rest => exact setDeepGo_errOnlyLen (p :: rest) t v

theorem mutateDeep_errOnlyLen : ∀ (c : JSValue) (ps : List String)
    (f : JSValue → Except ParseError JSValue),
    (∀ x, errOnlyLen (f x)) → errOnlyLen (mutateDeep c ps f)
  | c, [], f, hf => hf c
  | c, p :: rest, f, hf => by
    unfold mutateDeep
    by_cases hobj : c.isObjKind = true
    · rw [if_pos hobj]
      cases getProp c p with
      | none => exact True.intro
      | some c2 =>
        show errOnlyLen (match mutateDeep c2 rest f with
          | Except.error e => Except.error e
          | Except.ok c3 => setProp c p c3)
        cases hm : mutateDeep c2 rest f with
        | error e2 =>
          have h2 := mutateDeep_errOnlyLen c2 rest f hf
          rw [hm] at h2
          exact h2
        | ok c3 => exact setProp_errOnlyLen c p c3
    · rw [if_neg hobj]
      exact True.intro

theorem listStep_errOnlyLen (vmap : VMap) (target : JSValue) (ke : ListEntry) :
    errOnlyLen (listStep vmap target ke) := by
  unfold listStep
  by_cases hsk : jsTrim ke.value = ""
  · rw [if_pos hsk]
    exact True.intro
  · rw [if_neg hsk]
    by_cases hpo : isPlainObjectO (getDeep target ke.name) = true
    · rw [if_pos hpo]
      show errOnlyLen (if isPlainObjectO (getDeep target ke.name) then
          mutateDeep target (pathParts ke.name)
            (fun c => setProp c ke.value
              (JSValue.vStr ((vmap (ke.name ++ "::" ++ ke.index)).getD "")))
        else Except.ok target)
      rw [if_pos hpo]
      exact mutateDeep_errOnlyLen target (pathParts ke.name) _
        (fun x => setProp_errOnlyLen x ke.value _)
    · rw [if_neg hpo]
      cases hsd : setDeep target ke.name (JSValue.vObj Props.nil) with
      | error e2 =>
        have h2 := setDeep_errOnlyLen target ke.name (JSValue.vObj Props.nil)
        rw [hsd] at h2
        exact h2
      | ok target1 =>
        show errOnlyLen (if isPlainObjectO (getDeep target1 ke.name) then
            mutateDeep target1 (pathParts ke.name)
              (fun c => setProp c ke.value
                (JSValue.vStr ((vmap (ke.name ++ "::" ++ ke.index)).getD "")))
          else Except.ok target1)
        by_cases hpo1 : isPlainObjectO (getDeep target1 ke.name) = true
        · rw [if_pos hpo1]
          exact mutateDeep_errOnlyLen target1 (pathParts ke.name) _
            (fun x => setProp_errOnlyLen x ke.value _)
        · rw [if_neg hpo1]
          exact True.intro

theorem foldlM_listStep_errOnlyLen (vmap : VMap) :
    ∀ (l : List ListEntry) (target : JSValue),
    errOnlyLen (l.foldlM (listStep vmap) target)
  | [], _ => True.intro
  | ke :: rest, target => by
    rw [List.foldlM_cons]
    cases hstep : listStep vmap target ke with
    | error e2 =>
      have h2 := listStep_errOnlyLen vmap target ke
      rw [hstep] at h2
      have hb : (Except.error e2 >>= fun b => rest.foldlM (listStep vmap) b)
          = (Except.error e2 : Except ParseError JSValue) := rfl
      rw [hb]
      exact h2
    | ok t2 =>
      have hb : (Except.ok t2 >>= fun b => rest.foldlM (listStep vmap) b)
          = rest.foldlM (listStep vmap) t2 := rfl
      rw [hb]
      exact foldlM_listStep_errOnlyLen vmap rest t2

theorem applyListEntries_errOnlyLen (entries : List ListEntry) (target : JSValue) :
    errOnlyLen (applyListEntries entries target) := by
  unfold applyListEntries
  by_cases hne : entries = []
  · rw [if_pos hne]
    exact True.intro
  · rw [if_neg hne]
    exact foldlM_listStep_errOnlyLen _ _ _

theorem assignMerge_errOnlyLen (out : JSValue) (key ty : String) (parsed : JSValue) :
    errOnlyLen (assignMerge out key ty parsed) := by
  unfold assignMerge
  repeat' split
  all_goals exact setDeep_errOnlyLen _ _ _

theorem processEntry_lenient_errOnlyLen (env : JSEnv) (opts : ParseOptions)
    (acc : JSValue × List ListEntry) (en : String × RawValue)
    (hs : opts.strict = false) :
    errOnlyLen (processEntry env opts acc en) := by
  obtain ⟨name, rv⟩ := en
  by_cases hty : (parseFieldName name).type = "list"
  · simp only [processEntry, hty, if_true, reduceIte]
    cases hp : parseListEntry name rv opts with
    | error err =>
      have hlem := parseListEntry_lenient_ok name rv opts hs
      rw [hp] at hlem
      exact absurd hlem (by simp [isOk_error])
    | ok o => cases o <;> exact True.intro
  · simp only [processEntry, hty, if_false, reduceIte]
    cases rv with
    | file fh =>
      show errOnlyLen (match setDeep acc.1 (parseFieldName name).key
          (JSValue.vFile fh Props.nil) with
        | Except.error e => Except.error e
        | Except.ok out2 => Except.ok (out2, acc.2))
      cases hsd : setDeep acc.1 (parseFieldName name).key (JSValue.vFile fh Props.nil) with
      | error e2 =>
        have h2 := setDeep_errOnlyLen acc.1 (parseFieldName name).key
          (JSValue.vFile fh Props.nil)
        rw [hsd] at h2
        exact h2
      | ok out2 => exact True.intro
    | str s =>
      by_cases hie : opts.ignoreEmpty = true ∧ jsTrim s = ""
      · simp only [hie, if_true, reduceIte]
        exact True.intro
      · simp only [hie, if_false, reduceIte]
        cases hc : castValue env (parseFieldName name).type s opts
            (parseFieldName name).arraySeparator with
        | error err =>
          have hlem := castValue_lenient_ok env (parseFieldName name).type s opts
            (parseFieldName name).arraySeparator hs
          rw [hc] at hlem
          exact absurd hlem (by simp [isOk_error])
        | ok parsed =>
          show errOnlyLen (match assignMerge acc.1 (parseFieldName name).key
              (parseFieldName name).type parsed with
            | Except.error e => Except.error e
            | Except.ok out2 => Except.ok (out2, acc.2))
          cases ham : assignMerge acc.1 (parseFieldName name).key
              (parseFieldName name).type parsed with
          | error e2 =>
            have h2 := assignMerge_errOnlyLen acc.1 (parseFieldName name).key
              (parseFieldName name).type parsed
            rw [ham] at h2
            exact h2
          | ok out2 => exact True.intro

theorem foldlM_processEntry_errOnlyLen (env : JSEnv) (opts : ParseOptions)
    (hs : opts.strict = false) :
    ∀ (entries : List (String × RawValue)) (acc : JSValue × List ListEntry),
    errOnlyLen (entries.foldlM (processEntry env opts) acc)
  | [], _ => True.intro
  | en :: rest, acc => by
    rw [List.foldlM_cons]
    cases hp : processEntry env opts acc en with
    | error e2 =>
      have h2 := processEntry_lenient_errOnlyLen env opts acc en hs
      rw [hp] at h2
      have hb : (Except.error e2 >>= fun b => rest.foldlM (processEntry env opts) b)
          = (Except.error e2 : Except ParseError (JSValue × List ListEntry)) := rfl
      rw [hb]
      exact h2
    | ok acc2 =>
      have hb : (Except.ok acc2 >>= fun b => rest.foldlM (processEntry env opts) b)
          = rest.foldlM (processEntry env opts) acc2 := rfl
      rw [hb]
      exact foldlM_processEntry_errOnlyLen env opts hs rest acc2

/-- In non-strict mode, the only error the whole parse can raise is the
array-length `RangeError`. -/
theorem parseTypedFormData_lenient_errOnlyLen (env : JSEnv)
    (entries : List (String × RawValue)) (opts : ParseOptions)
    (hs : opts.strict = false) :
    errOnlyLen (parseTypedFormData env entries opts) := by
  unfold parseTypedFormData
  cases hf : entries.foldlM (processEntry env opts) (JSValue.vObj .nil, []) with
  | error e2 =>
    have h2 := foldlM_processEntry_errOnlyLen env opts hs entries (JSValue.vObj .nil, [])
    rw [hf] at h2
    exact h2
  | ok pair =>
    obtain ⟨out, les⟩ := pair
    show errOnlyLen (match applyListEntries les out with
      | Except.error e => Except.error e
      | Except.ok out1 => Except.ok (if opts.ignoreEmpty then cleanValue out1 else out1))
    cases ha : applyListEntries les out with
    | error e2 =>
      have h2 := applyListEntries_errOnlyLen les out
      rw [ha] at h2
      exact h2
    | ok out1 => exact True.intro

/-- Claim C4 (amended): for each declared type `number`, `boolean`, `date`,
`json` whose failure condition holds — for `number` the failure condition
includes literals whose value overflows binary64 to `±Infinity`, such as
`1e309` — the cast raises the matching typed error carrying the offending
raw string under `strict` and returns the original raw string unchanged
otherwise.  With `strict = false` the caster itself never raises, and the
only error the whole parse can raise — for any entries and any host
environment — is JavaScript's own `RangeError` from an invalid array-length
assignment (a deep write through a field name such as `a.length` over a
previously stored array); no cast failure and no field-name problem ever
raises in non-strict mode. -/
theorem cast_failure_handling (env : JSEnv) (raw : String) (opts : ParseOptions)
    (sep : Option String) :
    (jsStringToNumber raw = none →
        castValue env "number" raw ⟨opts.ignoreEmpty, true, opts.defaultArraySeparator⟩ sep
          = .error (.invalidNumber raw)
        ∧ castValue env "number" raw ⟨opts.ignoreEmpty, false, opts.defaultArraySeparator⟩ sep
          = .ok (.vStr raw))
    ∧ (parseBoolean raw = none →
        castValue env "boolean" raw ⟨opts.ignoreEmpty, true, opts.defaultArraySeparator⟩ sep
          = .error (.invalidBoolean raw)
        ∧ castValue env "boolean" raw ⟨opts.ignoreEmpty, false, opts.defaultArraySeparator⟩ sep
          = .ok (.vStr raw))
    ∧ (env.parseDate raw = none →
        castValue env "date" raw ⟨opts.ignoreEmpty, true, opts.defaultArraySeparator⟩ sep
          = .error (.invalidDate raw)
        ∧ castValue env "date" raw ⟨opts.ignoreEmpty, false, opts.defaultArraySeparator⟩ sep
          = .ok (.vStr raw))
    ∧ (env.parseJSON raw = none →
        castValue env "json" raw ⟨opts.ignoreEmpty, true, opts.defaultArraySeparator⟩ sep
          = .error (.invalidJson raw)
        ∧ castValue env "json" raw ⟨opts.ignoreEmpty, false, opts.defaultArraySeparator⟩ sep
          = .ok (.vStr raw))
    ∧ (opts.strict = false →
        ∀ (ty : String) (entries : List (String × RawValue)) (e : ParseError),
          (castValue env ty raw opts sep).isOk = true
          ∧ (parseTypedFormData env entries opts = .error e →
              e = ParseError.invalidArrayLength)) := by
  refine ⟨fun h => ?_, fun h => ?_, fun h => ?_, fun h => ?_, fun h ty entries e => ?_⟩
  · constructor <;> simp [castValue, h]
  · constructor <;> simp [castValue, h]
  · constructor <;> simp [castValue, h]
  · constructor <;> simp [castValue, h]
  · exact ⟨castValue_lenient_ok env ty raw opts sep h,
      fun he => errOnlyLen_error _ e
        (parseTypedFormData_lenient_errOnlyLen env entries opts h) he⟩

/-- Claim C4's closing conjunct as originally stated — "with strict=false no
input entry causes the parse to raise at all" — is refuted on the code:
after `array::a` stores an array at `a`, the entry named `a.length` reads
the existing value at that dotted path (the array's length, `1`), merges it
with the new string into the two-element array `[1, "zz"]`, and deep-writes
that array into the `length` slot of the array stored at `a`; JavaScript's
array-length assignment coerces it with `ToNumber` (its join is `"1,zz"`,
i.e. `NaN`) and raises `RangeError` — so the non-strict parse throws. -/
theorem cast_failure_refuted :
    parseTypedFormData envNone [("array::a", .str "x"), ("a.length", .str "zz")]
        ⟨false, false, ","⟩
      = .error ParseError.invalidArrayLength
    ∧ (parseTypedFormData envNone [("array::a", .str "x"), ("a.length", .str "zz")]
        ⟨false, false, ","⟩).isOk = false :=
  ⟨by decide, by decide⟩

set_option maxRecDepth 8192 in
set_option exponentiation.threshold 2000 in
theorem cast_failure_handling_witness :
    castValue envNone "number" "1e309" ⟨false, true, ","⟩ none
      = .error (.invalidNumber "1e309")
    ∧ castValue envNone "number" "1e309" ⟨false, false, ","⟩ none
      = .ok (.vStr "1e309")
    ∧ (castValue envNone "number" "abc" ⟨false, false, ","⟩ none).isOk = true
    ∧ ParseError.invalidArrayLength = ParseError.invalidArrayLength :=
  ⟨((cast_failure_handling envNone "1e309" ⟨false, false, ","⟩ none).1 (by decide)).1,
   ((cast_failure_handling envNone "1e309" ⟨false, false, ","⟩ none).1 (by decide)).2,
   ((cast_failure_handling envNone "abc" ⟨false, false, ","⟩ none).2.2.2.2 rfl
      "number" [] ParseError.invalidArrayLength).1,
   ((cast_failure_handling envNone "abc" ⟨false, false, ","⟩ none).2.2.2.2 rfl
      "number" [("array::a", .str "x"), ("a.length", .str "zz")]
      ParseError.invalidArrayLength).2 (by decide)⟩

/-! ## Claim C8 -/

theorem Props.set_set : ∀ (l : Props) (k : String) (a b : JSValue),
    (l.set k a).set k b = l.set k b
  | .nil, k, a, b => by simp [Props.set]
  | .cons k' w tl, k, a, b => by
    by_cases h : k' = k <;> simp [Props.set, h, Props.set_set tl k a b]

theorem Props.lookup_set : ∀ (l : Props) (k : String) (v : JSValue),
    (l.set k v).lookup k = some v
  | .nil, k, v => by simp [Props.set, Props.lookup]
  | .cons k' w tl, k, v => by
    by_cases h : k' = k <;>
      simp [Props.set, Props.lookup, h, Props.lookup_set tl k v]

theorem VList.setPad_setPad : ∀ (es : VList) (i : Nat) (a b : JSValue),
    (es.setPad i a).setPad i b = es.setPad i b
  | .nil, 0, _, _ => rfl
  | .nil, i + 1, a, b => by
    simp [VList.setPad, VList.setPad_setPad .nil i a b]
  | .cons _ _, 0, _, _ => rfl
  | .cons hd tl, i + 1, a, b => by
    simp [VList.setPad, VList.setPad_setPad tl i a b]

theorem VList.get_setPad : ∀ (es : VList) (i : Nat) (v : JSValue),
    (es.setPad i v).get i = some v
  | .nil, 0, _ => rfl
  | .nil, i + 1, v => by
    simp [VList.setPad, VList.get, VList.get_setPad .nil i v]
  | .cons _ _, 0, _ => rfl
  | .cons hd tl, i + 1, v => by
    simp [VList.setPad, VList.get, VList.get_setPad tl i v]

theorem setProp_ok_objKind (c : JSValue) (k : String) (v t : JSValue)
    (hok : setProp c k v = .ok t) : t.isObjKind = c.isObjKind := by
  cases c
  case vArr es props =>
    replace hok : (if k = "length" then
        match toNumber v with
        | some q =>
          match ratIsLength q with
          | some n => Except.ok (JSValue.vArr (es.resize n) props)
          | none => Except.error ParseError.invalidArrayLength
        | none => Except.error ParseError.invalidArrayLength
      else if isCanonicalIndex k.data then
        Except.ok (JSValue.vArr (es.setPad (decDigitsVal k.data) v) props)
      else Except.ok (JSValue.vArr es (props.set k v))) = Except.ok t := hok
    repeat' split at hok
    all_goals try exact Except.noConfusion hok
    all_goals injection hok with h2
    all_goals rw [← h2]
    all_goals rfl
  all_goals injection hok with h2
  all_goals rw [← h2]
  all_goals rfl

theorem normUndef_some_objKind (v : JSValue) (h : v.isObjKind = true) :
    normUndef (some v) = some v := by
  cases v <;> simp_all [normUndef, JSValue.isObjKind]

theorem descendChild_objKind (cur : JSValue) (p : String) :
    (descendChild cur p).isObjKind = true := by
  unfold descendChild
  cases getProp cur p with
  | none => rfl
  | some c =>
    by_cases hk : c.isObjKind = true
    · simp [hk]
    · show (if c.isObjKind = true then c else JSValue.vObj Props.nil).isObjKind = true
      rw [if_neg hk]
      rfl

/-- The `length` slot of an array always holds a number, so `setDeep`'s
intermediate-segment walk never descends into it: it replaces it by a fresh
empty mapping. -/
theorem descendChild_length (es : VList) (props : Props) :
    descendChild (.vArr es props) "length" = .vObj .nil := rfl

theorem setDeepGo_ok_objKind : ∀ (ps : List String) (c v t : JSValue),
    setDeepGo c ps v = .ok t → t.isObjKind = c.isObjKind
  | [], c, v, t, hok => by
    injection hok with h2
    rw [← h2]
  | [p], c, v, t, hok => setProp_ok_objKind c p v t hok
  | p :: q :: rest, c, v, t, hok => by
    rw [setDeepGo_cons] at hok
    cases hx : setDeepGo (descendChild c p) (q :: rest) v with
    | error e =>
      rw [hx] at hok
      exact absurd hok (by simp)
    | ok X =>
      rw [hx] at hok
      exact setProp_ok_objKind c p X t hok

theorem setDeepGo_ok_vObj : ∀ (ps : List String) (pr : Props) (v t : JSValue),
    setDeepGo (.vObj pr) ps v = .ok t → ∃ pr2, t = .vObj pr2
  | [], pr, v, t, hok => by
    injection hok with h2
    exact ⟨pr, h2.symm⟩
  | [p], pr, v, t, hok => by
    unfold setDeepGo setProp at hok
    injection hok with h2
    exact ⟨pr.set p v, h2.symm⟩
  | p :: q :: rest, pr, v, t, hok => by
    rw [setDeepGo_cons] at hok
    cases hx : setDeepGo (descendChild (JSValue.vObj pr) p) (q :: rest) v with
    | error e =>
      rw [hx] at hok
      exact absurd hok (by simp)
    | ok X =>
      rw [hx] at hok
      injection hok with h2
      exact ⟨pr.set p X, h2.symm⟩

/-- A successful JavaScript write of a `typeof "object"` value at `p` either
was silently dropped (primitive receiver), or produced a tree whose walk
re-reading `p` descends into exactly the written value and whose further
writes at `p` behave as the original receiver's.  The `hlen` hypothesis
records that the written value does not coerce to a number when the
receiver is an array and `p` is its `length` slot — in that situation a
successful write is impossible, which makes the case vacuous. -/
theorem setProp_cases (cur : JSValue) (p : String) (X t1 : JSValue)
    (hX : X.isObjKind = true)
    (hlen : cur.isArrayV = true → p = "length" → toNumber X = none)
    (hok : setProp cur p X = .ok t1) :
    t1 = cur ∨ (descendChild t1 p = X ∧ ∀ Y, setProp t1 p Y = setProp cur p Y) := by
  cases cur with
  | vStr s =>
    injection hok with h2
    exact Or.inl h2.symm
  | vNum q =>
    injection hok with h2
    exact Or.inl h2.symm
  | vBool b1 =>
    injection hok with h2
    exact Or.inl h2.symm
  | vNull =>
    injection hok with h2
    exact Or.inl h2.symm
  | vUndef =>
    injection hok with h2
    exact Or.inl h2.symm
  | vObj props =>
    injection hok with h2
    refine Or.inr ⟨?_, fun Y => ?_⟩
    · rw [← h2]
      simp [descendChild, getProp, Props.lookup_set, normUndef_some_objKind X hX, hX]
    · rw [← h2]
      simp [setProp, Props.set_set]
  | vDate tt props =>
    injection hok with h2
    refine Or.inr ⟨?_, fun Y => ?_⟩
    · rw [← h2]
      simp [descendChild, getProp, Props.lookup_set, normUndef_some_objKind X hX, hX]
    · rw [← h2]
      simp [setProp, Props.set_set]
  | vFile fh props =>
    injection hok with h2
    refine Or.inr ⟨?_, fun Y => ?_⟩
    · rw [← h2]
      simp [descendChild, getProp, Props.lookup_set, normUndef_some_objKind X hX, hX]
    · rw [← h2]
      simp [setProp, Props.set_set]
  | vArr es props =>
    replace hok : (if p = "length" then
        match toNumber X with
        | some q =>
          match ratIsLength q with
          | some n => Except.ok (JSValue.vArr (es.resize n) props)
          | none => Except.error ParseError.invalidArrayLength
        | none => Except.error ParseError.invalidArrayLength
      else if isCanonicalIndex p.data then
        Except.ok (JSValue.vArr (es.setPad (decDigitsVal p.data) X) props)
      else Except.ok (JSValue.vArr es (props.set p X))) = Except.ok t1 := hok
    by_cases hL : p = "length"
    · rw [if_pos hL, hlen rfl hL] at hok
      exact absurd hok (by simp)
    · by_cases hI : isCanonicalIndex p.data = true
      · rw [if_neg hL, if_pos hI] at hok
        injection hok with h2
        refine Or.inr ⟨?_, fun Y => ?_⟩
        · rw [← h2]
          simp [descendChild, getProp, hL, hI, VList.get_setPad,
            normUndef_some_objKind X hX, hX]
        · rw [← h2]
          simp [setProp, hL, hI, VList.setPad_setPad]
      · rw [if_neg hL, if_neg hI] at hok
        injection hok with h2
        refine Or.inr ⟨?_, fun Y => ?_⟩
        · rw [← h2]
          simp [descendChild, getProp, hL, hI, Props.lookup_set,
            normUndef_some_objKind X hX, hX]
        · rw [← h2]
          simp [setProp, hL, hI, Props.set_set]

/-- A successful deep write of a value that does not coerce to a number
(such as a `File`) is collapsed by a second deep write along the same path:
the second write computes the same result as if the first had never
happened. -/
theorem setDeepGo_collapse : ∀ (ps : List String) (cur v1 v2 t1 : JSValue),
    toNumber v1 = none → setDeepGo cur ps v1 = .ok t1 →
    setDeepGo t1 ps v2 = setDeepGo cur ps v2
  | [], cur, v1, v2, t1, _, hok => by
    injection hok with h2
    rw [← h2]
  | [p], cur, v1, v2, t1, hv1, hok => by
    show setProp t1 p v2 = setProp cur p v2
    replace hok : setProp cur p v1 = Except.ok t1 := hok
    cases cur with
    | vStr s =>
      injection hok with h2
      rw [← h2]
    | vNum q =>
      injection hok with h2
      rw [← h2]
    | vBool b1 =>
      injection hok with h2
      rw [← h2]
    | vNull =>
      injection hok with h2
      rw [← h2]
    | vUndef =>
      injection hok with h2
      rw [← h2]
    | vObj props =>
      injection hok with h2
      rw [← h2]
      simp [setProp, Props.set_set]
    | vDate tt props =>
      injection hok with h2
      rw [← h2]
      simp [setProp, Props.set_set]
    | vFile fh props =>
      injection hok with h2
      rw [← h2]
      simp [setProp, Props.set_set]
    | vArr es props =>
      replace hok : (if p = "length" then
          match toNumber v1 with
          | some q =>
            match ratIsLength q with
            | some n => Except.ok (JSValue.vArr (es.resize n) props)
            | none => Except.error ParseError.invalidArrayLength
          | none => Except.error ParseError.invalidArrayLength
        else if isCanonicalIndex p.data then
          Except.ok (JSValue.vArr (es.setPad (decDigitsVal p.data) v1) props)
        else Except.ok (JSValue.vArr es (props.set p v1))) = Except.ok t1 := hok
      by_cases hL : p = "length"
      · rw [if_pos hL, hv1] at hok
        exact absurd hok (by simp)
      · by_cases hI : isCanonicalIndex p.data = true
        · rw [if_neg hL, if_pos hI] at hok
          injection hok with h2
          rw [← h2]
          simp [setProp, hL, hI, VList.setPad_setPad]
        · rw [if_neg hL, if_neg hI] at hok
          injection hok with h2
          rw [← h2]
          simp [setProp, hL, hI, Props.set_set]
  | p :: q :: rest, cur, v1, v2, t1, hv1, hok => by
    rw [setDeepGo_cons] at hok
    cases hx : setDeepGo (descendChild cur p) (q :: rest) v1 with
    | error e =>
      rw [hx] at hok
      exact absurd hok (by simp)
    | ok X1 =>
      rw [hx] at hok
      replace hok : setProp cur p X1 = Except.ok t1 := hok
      have hX1obj : X1.isObjKind = true := by
        rw [setDeepGo_ok_objKind (q :: rest) (descendChild cur p) v1 X1 hx]
        exact descendChild_objKind cur p
      have hlen : cur.isArrayV = true → p = "length" → toNumber X1 = none := by
        intro ha hp
        subst hp
        cases cur <;> simp [JSValue.isArrayV] at ha
        case vArr es2 props2 =>
          rw [descendChild_length] at hx
          obtain ⟨pr2, hX1⟩ := setDeepGo_ok_vObj (q :: rest) Props.nil v1 X1 hx
          rw [hX1]
          rfl
      rcases setProp_cases cur p X1 t1 hX1obj hlen hok with h1 | ⟨hdc, hset⟩
      · rw [h1]
      · rw [setDeepGo_cons t1, setDeepGo_cons cur, hdc,
          setDeepGo_collapse (q :: rest) (descendChild cur p) v1 v2 X1 hv1 hx]
        cases setDeepGo (descendChild cur p) (q :: rest) v2 with
        | error e => rfl
        | ok Y => exact hset Y

theorem setDeep_file_overwrite (t t1 : JSValue) (path : String) (h1 h2 : Nat)
    (hok : setDeep t path (.vFile h1 .nil) = .ok t1) :
    setDeep t1 path (.vFile h2 .nil) = setDeep t path (.vFile h2 .nil) := by
  unfold setDeep at hok ⊢
  cases hp : pathParts path with
  | nil =>
    rw [hp] at hok
    injection hok with h3
    rw [← h3]
  | cons p rest =>
    rw [hp] at hok
    exact setDeepGo_collapse (p :: rest) t (.vFile h1 .nil) (.vFile h2 .nil) t1 rfl hok

/-- Claim C8: an entry carrying a binary attachment (`File`) bypasses the
multi-value merger entirely — its processing step is exactly a deep write of
the `File` — and whenever that write succeeds, a later attachment deep-written
at the same path overwrites the earlier one (the second write computes the
same result as if the first had never happened), so no array promotion ever
occurs, unlike repeated string fields; the two-file example computes to the
last file alone. -/
theorem file_overwrite (env : JSEnv) (opts : ParseOptions) (out : JSValue)
    (les : List ListEntry) (name : String) (h1 h2 : Nat)
    (hty : (parseFieldName name).type ≠ "list") :
    processEntry env opts (out, les) (name, .file h1)
      = (setDeep out (parseFieldName name).key (.vFile h1 .nil)).map
          (fun o => (o, les))
    ∧ (∀ t1, setDeep out (parseFieldName name).key (.vFile h1 .nil) = .ok t1 →
        setDeep t1 (parseFieldName name).key (.vFile h2 .nil)
          = setDeep out (parseFieldName name).key (.vFile h2 .nil))
    ∧ parseTypedFormData envNone [("x", .file 5), ("x", .file 7)] DEFAULT_OPTIONS
      = .ok (.vObj (.cons "x" (.vFile 7 .nil) .nil)) := by
  refine ⟨?_, fun t1 hok =>
    setDeep_file_overwrite out t1 (parseFieldName name).key h1 h2 hok, by decide⟩
  simp only [processEntry, hty, if_false, reduceIte]
  cases setDeep out (parseFieldName name).key (JSValue.vFile h1 Props.nil) <;> rfl

theorem file_overwrite_witness :
    processEntry envNone DEFAULT_OPTIONS (.vObj .nil, []) ("avatar", .file 5)
      = (setDeep (.vObj .nil) "avatar" (.vFile 5 .nil)).map (fun o => (o, []))
    ∧ setDeep (.vObj (.cons "avatar" (.vFile 5 .nil) .nil)) "avatar" (.vFile 7 .nil)
      = setDeep (.vObj .nil) "avatar" (.vFile 7 .nil)
    ∧ parseTypedFormData envNone [("x", .file 5), ("x", .file 7)] DEFAULT_OPTIONS
      = .ok (.vObj (.cons "x" (.vFile 7 .nil) .nil)) := by
  have h := file_overwrite envNone DEFAULT_OPTIONS (.vObj .nil) [] "avatar" 5 7
    (by decide)
  exact ⟨h.1, h.2.1 (.vObj (.cons "avatar" (.vFile 5 .nil) .nil)) (by decide), h.2.2⟩

/-! ## Claim C5 -/

/-- The invalidity condition exactly as claim C5 states it: fewer than 4
`"::"` segments, a variant that is neither `key` nor `value`
case-insensitively, or a group name or index that is empty *after
trimming*. -/
def listNameInvalidSpecC5 (rawName : String) : Prop :=
  (jsSplitOn rawName "::").length < 4
  ∨ (jsToLower ((jsSplitOn rawName "::").getD 1 "") ≠ "key"
      ∧ jsToLower ((jsSplitOn rawName "::").getD 1 "") ≠ "value")
  ∨ jsTrim (joinSep "::" ((List.drop 2 (jsSplitOn rawName "::")).dropLast)) = ""
  ∨ jsTrim ((jsSplitOn rawName "::").getLast?.getD "") = ""

/-- The invalidity condition the source actually checks: the same, except
that the group name and index are compared with the empty string directly
(`!name || !index`), with no trimming. -/
def listNameInvalid (rawName : String) : Prop :=
  (jsSplitOn rawName "::").length < 4
  ∨ (jsToLower ((jsSplitOn rawName "::").getD 1 "") ≠ "key"
      ∧ jsToLower ((jsSplitOn rawName "::").getD 1 "") ≠ "value")
  ∨ joinSep "::" ((List.drop 2 (jsSplitOn rawName "::")).dropLast) = ""
  ∨ (jsSplitOn rawName "::").getLast?.getD "" = ""

instance (rawName : String) : Decidable (listNameInvalidSpecC5 rawName) := by
  unfold listNameInvalidSpecC5
  infer_instance

instance (rawName : String) : Decidable (listNameInvalid rawName) := by
  unfold listNameInvalid
  infer_instance

theorem parseListEntry_invalid (rawName : String) (rv : RawValue)
    (opts : ParseOptions) (hinv : listNameInvalid rawName) :
    parseListEntry rawName rv opts
      = if opts.strict then .error (.invalidFieldName rawName) else .ok none := by
  unfold parseListEntry
  by_cases hlen : (jsSplitOn rawName "::").length < 4
  · rw [if_pos hlen]
  · rw [if_neg hlen]
    by_cases hvar : jsToLower ((jsSplitOn rawName "::").getD 1 "") ≠ "key"
        ∧ jsToLower ((jsSplitOn rawName "::").getD 1 "") ≠ "value"
    · rw [if_pos hvar]
    · rw [if_neg hvar]
      have hni : joinSep "::" ((List.drop 2 (jsSplitOn rawName "::")).dropLast) = ""
          ∨ (jsSplitOn rawName "::").getLast?.getD "" = "" := by
        rcases hinv with h1 | h2 | h3 | h4
        · exact absurd h1 hlen
        · exact absurd h2 hvar
        · exact Or.inl h3
        · exact Or.inr h4
      rw [if_pos hni]

/-- Claim C5 (amended): for an entry classified as a list entry, if the raw
name has fewer than 4 `"::"` segments, or its variant is neither `key` nor
`value` case-insensitively, or its group name or index is the empty string
(*without* trimming — whitespace-only group names and indices are
accepted), then under `strict` the parse raises `InvalidFieldName` and
otherwise the entry is silently dropped, contributing nothing. -/
theorem invalid_list_entry (env : JSEnv) (opts : ParseOptions)
    (acc : JSValue × List ListEntry) (rawName : String) (rv : RawValue)
    (hty : (parseFieldName rawName).type = "list")
    (hinv : listNameInvalid rawName) :
    (opts.strict = true →
      processEntry env opts acc (rawName, rv) = .error (.invalidFieldName rawName))
    ∧ (opts.strict = false → processEntry env opts acc (rawName, rv) = .ok acc) := by
  constructor <;> intro hs <;>
    simp [processEntry, hty, parseListEntry_invalid rawName rv opts hinv, hs]

theorem invalid_list_entry_witness :
    processEntry envNone ⟨false, true, ","⟩ (.vObj .nil, []) ("list::a::b", .str "v")
      = .error (.invalidFieldName "list::a::b")
    ∧ processEntry envNone ⟨false, false, ","⟩ (.vObj .nil, []) ("list::a::b", .str "v")
      = .ok (.vObj .nil, []) :=
  ⟨(invalid_list_entry envNone ⟨false, true, ","⟩ (.vObj .nil, []) "list::a::b"
      (.str "v") (by decide) (by decide)).1 rfl,
   (invalid_list_entry envNone ⟨false, false, ","⟩ (.vObj .nil, []) "list::a::b"
      (.str "v") (by decide) (by decide)).2 rfl⟩

/-- Claim C5 is refuted on the code as stated: `"list::key:: ::0"` has a
whitespace-only group name, which the claim counts as invalid (empty after
trimming), yet the source tests `!name` without trimming, so in strict mode
the entry does **not** raise and in lenient mode it is **not** dropped — it
is accepted and buffered with the group name `" "`. -/
theorem invalid_list_entry_refuted :
    (parseFieldName "list::key:: ::0").type = "list"
    ∧ listNameInvalidSpecC5 "list::key:: ::0"
    ∧ parseListEntry "list::key:: ::0" (.str "v") ⟨false, true, ","⟩
      = .ok (some ⟨.key, " ", "0", "v"⟩)
    ∧ parseListEntry "list::key:: ::0" (.str "v") ⟨false, false, ","⟩
      = .ok (some ⟨.key, " ", "0", "v"⟩) := by
  refine ⟨by decide, by decide, by decide, by decide⟩

/-! ## Claim C3 -/

/-- The raw string of the last buffered value-entry sharing the given group
name and index (claim C3 / spec §4.5 step 2: last write wins). -/
def lastValueFor : List ListEntry → String → String → Option String
  | [], _, _ => none
  | e :: rest, n, i =>
    match lastValueFor rest n i with
    | some v => some v
    | none =>
      if e.variant = ListVariant.value ∧ e.name = n ∧ e.index = i then some e.value
      else none

/-- The raw string of the last entry whose combined
`name ++ "::" ++ index` lookup key equals `k` — the shape of the source's
`valueMap`. -/
def lastJoinMatch : List ListEntry → String → Option String
  | [], _ => none
  | e :: rest, k =>
    match lastJoinMatch rest k with
    | some v => some v
    | none => if e.name ++ "::" ++ e.index = k then some e.value else none

/-- One key-entry step as claim C3 describes it, parameterised by what
counts as a reusable container at the group path: `isMapping` for the claim
as stated ("absent or not a mapping" is replaced), `isPlainObject` for the
amended claim (the source's test, which a binary attachment also passes).
Skip the key-entry when its raw string trims to empty; otherwise take the
raw string of the last value-entry sharing the group name and index (empty
string when there is none), replace the container by an empty mapping
unless it qualifies, and let the container gain the property named by the
key-entry's raw string. -/
def listStepSpec (ok : JSValue → Bool) (entries : List ListEntry)
    (target : JSValue) (ke : ListEntry) : Except ParseError JSValue :=
  if jsTrim ke.value = "" then .ok target
  else
    match (if (match getDeep target ke.name with
               | some c => ok c
               | none => false) then .ok target
           else setDeep target ke.name (.vObj .nil)) with
    | .error e => .error e
    | .ok target1 =>
      if (match getDeep target1 ke.name with
          | some c => ok c
          | none => false) then
        mutateDeep target1 (pathParts ke.name)
          (fun c => setProp c ke.value
            (.vStr ((lastValueFor entries ke.name ke.index).getD "")))
      else .ok target1

/-- The whole assembly pass as claim C3 describes it: fold the key-entries
in original submission order, a raise aborting the remainder. -/
def applyListEntriesSpec (ok : JSValue → Bool) (entries : List ListEntry)
    (target : JSValue) : Except ParseError JSValue :=
  (entries.filter (fun e => e.variant = ListVariant.key)).foldlM
    (listStepSpec ok entries) target

theorem foldlM_congr_except {β : Type}
    (f g : JSValue → β → Except ParseError JSValue) :
    ∀ (l : List β) (a : JSValue),
    (∀ acc b, b ∈ l → f acc b = g acc b) →
    l.foldlM f a = l.foldlM g a
  | [], _, _ => rfl
  | b :: l, a, h => by
    rw [List.foldlM_cons, List.foldlM_cons, h a b (List.mem_cons_self b l)]
    cases g a b with
    | error e => rfl
    | ok a2 =>
      have h1 : (Except.ok a2 >>= fun x => l.foldlM f x) = l.foldlM f a2 := rfl
      have h2 : (Except.ok a2 >>= fun x => l.foldlM g x) = l.foldlM g a2 := rfl
      rw [h1, h2]
      exact foldlM_congr_except f g l a2
        (fun acc b2 hb => h acc b2 (List.mem_cons_of_mem b hb))

/-- The buffered-entry invariant claim C3 tacitly relies on: the source's
combined `groupName ++ "::" ++ index` lookup key determines the pair.  It
holds for everything `parseListEntry` buffers, since an index — the last
`"::"`-split segment — never contains `"::"`. -/
def pairKeyInj (entries : List ListEntry) : Prop :=
  ∀ e1 ∈ entries, ∀ e2 ∈ entries,
    e1.name ++ "::" ++ e1.index = e2.name ++ "::" ++ e2.index →
    e1.name = e2.name ∧ e1.index = e2.index

instance (entries : List ListEntry) : Decidable (pairKeyInj entries) := by
  unfold pairKeyInj
  infer_instance

theorem vmapBuild_lookup : ∀ (l : List ListEntry) (m : VMap) (k : String),
    (l.foldl (fun m' ve => vmapSet m' (ve.name ++ "::" ++ ve.index) ve.value) m) k
      = match lastJoinMatch l k with
        | some v => some v
        | none => m k
  | [], _, _ => rfl
  | e :: rest, m, k => by
    rw [List.foldl_cons, vmapBuild_lookup rest _ k]
    cases h : lastJoinMatch rest k with
    | some v =>
      have he : lastJoinMatch (e :: rest) k = some v := by
        unfold lastJoinMatch
        rw [h]
      rw [he]
    | none =>
      have he : lastJoinMatch (e :: rest) k
          = if e.name ++ "::" ++ e.index = k then some e.value else none := by
        unfold lastJoinMatch
        rw [h]
      rw [he]
      by_cases hek : e.name ++ "::" ++ e.index = k
      · rw [if_pos hek]
        show vmapSet m (e.name ++ "::" ++ e.index) e.value k = some e.value
        unfold vmapSet
        rw [if_pos hek.symm]
      · rw [if_neg hek]
        show vmapSet m (e.name ++ "::" ++ e.index) e.value k = m k
        unfold vmapSet
        rw [if_neg (fun hh => hek hh.symm)]

theorem lastJoinMatch_filter : ∀ (l : List ListEntry) (n i : String),
    (∀ e ∈ l, (e.name ++ "::" ++ e.index = n ++ "::" ++ i) ↔
      (e.name = n ∧ e.index = i)) →
    lastJoinMatch (l.filter (fun e => e.variant = ListVariant.value))
        (n ++ "::" ++ i)
      = lastValueFor l n i
  | [], _, _, _ => rfl
  | e :: rest, n, i, h => by
    have hrest := lastJoinMatch_filter rest n i
      (fun e' he' => h e' (List.mem_cons_of_mem _ he'))
    have he := h e (List.mem_cons_self _ _)
    rw [List.filter_cons]
    by_cases hv : e.variant = ListVariant.value
    · rw [if_pos (by simp [hv])]
      unfold lastJoinMatch lastValueFor
      rw [hrest]
      cases lastValueFor rest n i with
      | some v => rfl
      | none =>
        by_cases hk : e.name = n ∧ e.index = i
        · rw [if_pos (he.mpr hk), if_pos ⟨hv, hk.1, hk.2⟩]
        · rw [if_neg (fun hh => hk (he.mp hh)),
            if_neg (fun hh => hk ⟨hh.2.1, hh.2.2⟩)]
    · rw [if_neg (by simp [hv])]
      unfold lastValueFor
      rw [hrest]
      cases lastValueFor rest n i with
      | some v => rfl
      | none => rw [if_neg (fun hh => hv hh.1)]

/-- Claim C3 (amended): after all entries are consumed, the assembly pass
folds the key-entries in original submission order: a key-entry whose raw
string is empty/whitespace-only contributes nothing; otherwise the value is
the raw string of the last submitted value-entry sharing the same group
name and index (last write wins; empty string when there is none), and the
container at path groupName — kept when it is a plain object *in the
source's sense*, which a binary attachment also satisfies, so an attachment
there is kept and itself gains the property; created or replaced by an
empty mapping otherwise — gains the property named by the key-entry's raw
string with that value.  The injectivity hypothesis is the buffered-entry
invariant: `parseListEntry` indices never contain `"::"`. -/
theorem list_pair_assembly (entries : List ListEntry) (target : JSValue)
    (hinj : pairKeyInj entries) :
    applyListEntries entries target
      = applyListEntriesSpec isPlainObject entries target := by
  unfold applyListEntries applyListEntriesSpec
  by_cases hne : entries = []
  · subst hne
    rw [if_pos rfl]
    rfl
  · rw [if_neg hne]
    apply foldlM_congr_except
    intro t ke hke
    have hkeE : ke ∈ entries := List.mem_of_mem_filter hke
    have hlookup :
        ((entries.filter (fun e => e.variant = ListVariant.value)).foldl
          (fun m' ve => vmapSet m' (ve.name ++ "::" ++ ve.index) ve.value)
          vmapEmpty) (ke.name ++ "::" ++ ke.index)
        = lastValueFor entries ke.name ke.index := by
      rw [vmapBuild_lookup]
      rw [lastJoinMatch_filter entries ke.name ke.index
        (fun e' he' => ⟨fun hj => hinj e' he' ke hkeE hj,
          fun hp => by rw [hp.1, hp.2]⟩)]
      cases lastValueFor entries ke.name ke.index <;> rfl
    unfold listStep listStepSpec
    rw [hlookup]
    rfl

theorem list_pair_assembly_witness :
    applyListEntries [⟨.key, "g", "0", "k"⟩, ⟨.value, "g", "0", "v"⟩] (.vObj .nil)
      = applyListEntriesSpec isPlainObject
          [⟨.key, "g", "0", "k"⟩, ⟨.value, "g", "0", "v"⟩] (.vObj .nil) :=
  list_pair_assembly [⟨.key, "g", "0", "k"⟩, ⟨.value, "g", "0", "v"⟩]
    (.vObj .nil) (by decide)

/-- Claim C3 is refuted on the code as stated: with a binary attachment
stored at the group path, the claim demands it be replaced by an empty
mapping ("if absent or not a mapping"), but the source's `isPlainObject`
accepts a `File` (non-null, `typeof "object"`, not an array, not a `Date`),
so the attachment is kept and itself gains the property; the two results
differ — even though the combined-key injectivity invariant holds for these
entries. -/
theorem list_pair_assembly_refuted :
    pairKeyInj [⟨.key, "g", "0", "k"⟩, ⟨.value, "g", "0", "v"⟩]
    ∧ applyListEntries [⟨.key, "g", "0", "k"⟩, ⟨.value, "g", "0", "v"⟩]
        (.vObj (.cons "g" (.vFile 7 .nil) .nil))
      = .ok (.vObj (.cons "g" (.vFile 7 (.cons "k" (.vStr "v") .nil)) .nil))
    ∧ applyListEntriesSpec isMapping [⟨.key, "g", "0", "k"⟩, ⟨.value, "g", "0", "v"⟩]
        (.vObj (.cons "g" (.vFile 7 .nil) .nil))
      = .ok (.vObj (.cons "g" (.vObj (.cons "k" (.vStr "v") .nil)) .nil))
    ∧ applyListEntries [⟨.key, "g", "0", "k"⟩, ⟨.value, "g", "0", "v"⟩]
        (.vObj (.cons "g" (.vFile 7 .nil) .nil))
      ≠ applyListEntriesSpec isMapping [⟨.key, "g", "0", "k"⟩, ⟨.value, "g", "0", "v"⟩]
        (.vObj (.cons "g" (.vFile 7 .nil) .nil)) := by
  refine ⟨by decide, by decide, by decide, by decide⟩
